import Mathlib

/-!
Shallow embedding of the robot-command repository (src/robot.rs, src/command.rs,
src/error.rs, src/interpreter.rs).

Rust `i32` coordinates are modelled as `Int` together with the well-formedness
predicate `Robot.wf` stating that both coordinates lie in the `i32` range; the
boundary checks of `move_forward` are translated literally.  Methods taking
`&mut Robot` and returning `Result<(), Error>` become functions
`Robot → Robot × Option Error`: on an error the returned robot carries exactly
the mutations performed before the early `return`, as in the source.

Character classes: the scanner's `is_ascii_digit` is exactly `Char.isDigit`;
Rust's `char::is_whitespace` is the Unicode White_Space property, a fixed set
of 25 code points modelled exactly by `rustIsWhitespace`; Rust's
`char::is_alphabetic` (the Unicode Alphabetic property, too large to
enumerate) is modelled by the ASCII letters `Char.isAlpha`.  The model and
the source therefore agree on every input except when a non-ASCII alphabetic
character starts a token (the source scans a keyword there, the model raises
UnexpectedCharacter); every theorem quantifying over characters carries
hypotheses that confine it to the agreeing region — in particular the token
start theorem on unexpected characters restricts the character to the ASCII
range, where `Char.isAlpha` coincides with `char::is_alphabetic`.

The interpreter's scanning loop consumes at least one character per produced
token, so it is embedded with a fuel parameter instantiated at
`input length + 1`, which never runs out.
-/

namespace RobotLang

/-- i32::MAX. -/
def i32Max : Int := 2147483647

/-- i32::MIN. -/
def i32Min : Int := -2147483648

/-- enum Direction (robot.rs). -/
inductive Direction
  | up
  | down
  | left
  | right
deriving DecidableEq

/-- struct Robot (robot.rs). -/
structure Robot where
  x : Int
  y : Int
  direction : Direction
  drawing : Bool
deriving DecidableEq

/-- Robot::default: `Self::new(0, 0, Direction::Up, false)`. -/
def Robot.default : Robot := ⟨0, 0, Direction.up, false⟩

/-- The `i32` typing invariant of the Rust fields `x` and `y`. -/
def Robot.wf (r : Robot) : Prop :=
  i32Min ≤ r.x ∧ r.x ≤ i32Max ∧ i32Min ≤ r.y ∧ r.y ≤ i32Max

instance (r : Robot) : Decidable r.wf := by
  unfold Robot.wf; exact inferInstance

/-- The robot sits at the extreme representable coordinate along its current
heading, i.e. exactly the condition of the early `return Err(OutOfBounds)`
branches of Robot::move_forward. -/
def Robot.atEdge (r : Robot) : Bool :=
  match r.direction with
  | Direction.up => r.y == i32Max
  | Direction.right => r.x == i32Max
  | Direction.down => r.y == i32Min
  | Direction.left => r.x == i32Min

/-- enum Token (interpreter.rs). -/
inductive Token
  | move
  | turnLeft
  | turnRight
  | downPen
  | upPen
  | number (n : Nat)
deriving DecidableEq

/-- enum Error (error.rs). -/
inductive Error
  | outOfBounds
  | unexpectedCharacter (c : Char)
  | unexpectedToken (t : Token)
  | invalidCommand
  | undefinedCommand (s : String)
  | invalidCommandParameter (s : String)
deriving DecidableEq

/-- Robot::move_forward (robot.rs): one step along the current heading with a
boundary check at the extreme representable value; on error the robot is
returned unchanged (early `return Err`). -/
def Robot.moveForward (r : Robot) : Robot × Option Error :=
  match r.direction with
  | Direction.up =>
      if r.y = i32Max then (r, some Error.outOfBounds)
      else ({ r with y := r.y + 1 }, none)
  | Direction.right =>
      if r.x = i32Max then (r, some Error.outOfBounds)
      else ({ r with x := r.x + 1 }, none)
  | Direction.down =>
      if r.y = i32Min then (r, some Error.outOfBounds)
      else ({ r with y := r.y - 1 }, none)
  | Direction.left =>
      if r.x = i32Min then (r, some Error.outOfBounds)
      else ({ r with x := r.x - 1 }, none)

/-- Robot::turn_left (robot.rs). -/
def Robot.turnLeft (r : Robot) : Robot :=
  { r with direction :=
      match r.direction with
      | Direction.up => Direction.left
      | Direction.left => Direction.down
      | Direction.down => Direction.right
      | Direction.right => Direction.up }

/-- Robot::turn_right (robot.rs). -/
def Robot.turnRight (r : Robot) : Robot :=
  { r with direction :=
      match r.direction with
      | Direction.up => Direction.right
      | Direction.right => Direction.down
      | Direction.down => Direction.left
      | Direction.left => Direction.up }

/-- Robot::down_pen (robot.rs): sets drawing only when it was off. -/
def Robot.downPen (r : Robot) : Robot :=
  if !r.drawing then { r with drawing := true } else r

/-- Robot::up_pen (robot.rs): clears drawing only when it was on. -/
def Robot.upPen (r : Robot) : Robot :=
  if r.drawing then { r with drawing := false } else r

/-- The closed set of Command implementations (command.rs): the trait objects
stored in a CommandList are exactly these five structs with their payloads. -/
inductive Command
  | moveCmd (distance : Nat)
  | turnLeftCmd (times : Nat)
  | turnRightCmd (times : Nat)
  | downPenCmd
  | upPenCmd
deriving DecidableEq

/-- The loop `for _ in 0..n { robot.move_forward()?; }` shared by
MoveCommand::execute and MoveCommand::rollback. -/
def moveSteps : Nat → Robot → Robot × Option Error
  | 0, r => (r, none)
  | n + 1, r =>
      match r.moveForward with
      | (r', none) => moveSteps n r'
      | (r', some e) => (r', some e)

/-- The loop `for _ in 0..n { robot.turn_left(); }`. -/
def turnLeftN : Nat → Robot → Robot
  | 0, r => r
  | n + 1, r => turnLeftN n r.turnLeft

/-- The loop `for _ in 0..n { robot.turn_right(); }`. -/
def turnRightN : Nat → Robot → Robot
  | 0, r => r
  | n + 1, r => turnRightN n r.turnRight

/-- Command::execute for each of the five implementations (command.rs). -/
def Command.execute : Command → Robot → Robot × Option Error
  | Command.moveCmd d, r => moveSteps d r
  | Command.turnLeftCmd t, r => (turnLeftN t r, none)
  | Command.turnRightCmd t, r => (turnRightN t r, none)
  | Command.downPenCmd, r => (r.downPen, none)
  | Command.upPenCmd, r => (r.upPen, none)

/-- Command::rollback for each of the five implementations (command.rs).
MoveCommand::rollback turns 180°, retraces `distance` steps (early return on
error, leaving the half-turned robot), then turns 180° back. -/
def Command.rollback : Command → Robot → Robot × Option Error
  | Command.moveCmd d, r =>
      match moveSteps d r.turnLeft.turnLeft with
      | (r', none) => (r'.turnLeft.turnLeft, none)
      | (r', some e) => (r', some e)
  | Command.turnLeftCmd t, r => (turnRightN t r, none)
  | Command.turnRightCmd t, r => (turnLeftN t r, none)
  | Command.downPenCmd, r => (r.upPen, none)
  | Command.upPenCmd, r => (r.downPen, none)

/-- MoveCommand::new (command.rs): stores the distance unchanged. -/
def MoveCommand.new (distance : Nat) : Command := Command.moveCmd distance

/-- TurnLeftCommand::new (command.rs): `let times = (times % 4) as u8`. -/
def TurnLeftCommand.new (times : Nat) : Command := Command.turnLeftCmd (times % 4)

/-- TurnRightCommand::new (command.rs): `let times = (times % 4) as u8`. -/
def TurnRightCommand.new (times : Nat) : Command := Command.turnRightCmd (times % 4)

/-- The shared shape of CommandList::execute_all / rollback_all: fold the given
step over the list, stopping at the first error and returning it together with
the robot as mutated so far. -/
def runList (step : Command → Robot → Robot × Option Error) :
    List Command → Robot → Robot × Option Error
  | [], r => (r, none)
  | c :: cs, r =>
      match step c r with
      | (r', none) => runList step cs r'
      | (r', some e) => (r', some e)

/-- CommandList::execute_all (command.rs): every command in insertion order,
fail-fast. -/
def executeAll (cmds : List Command) (r : Robot) : Robot × Option Error :=
  runList Command.execute cmds r

/-- CommandList::rollback_all (command.rs): `commands.iter_mut().rev()`,
applying rollback in reverse insertion order, fail-fast. -/
def rollbackAll (cmds : List Command) (r : Robot) : Robot × Option Error :=
  runList Command.rollback cmds.reverse r

/-- Rust char::is_whitespace: the Unicode White_Space property, which is
exactly the 25 code points U+0009–U+000D, U+0020, U+0085, U+00A0, U+1680,
U+2000–U+200A, U+2028, U+2029, U+202F, U+205F and U+3000. -/
def rustIsWhitespace (c : Char) : Bool :=
  decide ((9 ≤ c.toNat ∧ c.toNat ≤ 13) ∨ c.toNat = 32 ∨ c.toNat = 133 ∨
    c.toNat = 160 ∨ c.toNat = 5760 ∨ (8192 ≤ c.toNat ∧ c.toNat ≤ 8202) ∨
    c.toNat = 8232 ∨ c.toNat = 8233 ∨ c.toNat = 8239 ∨ c.toNat = 8287 ∨
    c.toNat = 12288)

/-- The accumulation loop shared by Scanner::scan_keyword and
Scanner::scan_number: push characters until whitespace (which is consumed) or
end of input. -/
def takeWord : List Char → List Char → List Char × List Char
  | buf, [] => (buf, [])
  | buf, c :: cs => if !(rustIsWhitespace c) then takeWord (buf ++ [c]) cs else (buf, cs)

/-- The keyword table of Scanner::scan_keyword (interpreter.rs). -/
def keywordToken (buf : String) : Except Error Token :=
  if buf = "move" then Except.ok Token.move
  else if buf = "turn_left" then Except.ok Token.turnLeft
  else if buf = "turn_right" then Except.ok Token.turnRight
  else if buf = "down_pen" then Except.ok Token.downPen
  else if buf = "up_pen" then Except.ok Token.upPen
  else Except.error (Error.undefinedCommand buf)

/-- The decimal value of a digit string, as accumulated by `str::parse`. -/
def digitsVal (l : List Char) : Nat :=
  l.foldl (fun a c => a * 10 + (c.toNat - 48)) 0

/-- `buffer.parse::<u32>()` on a buffer that starts with an ASCII digit:
succeeds exactly when every character is an ASCII digit and the value fits in
32 bits. -/
def parseU32 (buf : String) : Option Nat :=
  if buf.data ≠ [] ∧ buf.data.all Char.isDigit ∧ digitsVal buf.data < 4294967296 then
    some (digitsVal buf.data)
  else none

/-- Scanner::scan_keyword (interpreter.rs). -/
def scanKeyword (ch : Char) (cs : List Char) : Except Error Token × List Char :=
  match takeWord [ch] cs with
  | (buf, rest) => (keywordToken (String.mk buf), rest)

/-- Scanner::scan_number (interpreter.rs). -/
def scanNumber (ch : Char) (cs : List Char) : Except Error Token × List Char :=
  match takeWord [ch] cs with
  | (buf, rest) =>
      match parseU32 (String.mk buf) with
      | some n => (Except.ok (Token.number n), rest)
      | none => (Except.error (Error.invalidCommandParameter (String.mk buf)), rest)

/-- Scanner::next_token (interpreter.rs): skip whitespace; an alphabetic lead
starts a keyword, a digit lead starts a number, any other character is an
immediate UnexpectedCharacter error; end of input is a clean `none`. -/
def nextToken : List Char → Except Error (Option Token × List Char)
  | [] => Except.ok (none, [])
  | c :: cs =>
      if c.isAlpha then
        match scanKeyword c cs with
        | (Except.ok t, rest) => Except.ok (some t, rest)
        | (Except.error e, _) => Except.error e
      else if c.isDigit then
        match scanNumber c cs with
        | (Except.ok t, rest) => Except.ok (some t, rest)
        | (Except.error e, _) => Except.error e
      else if rustIsWhitespace c then nextToken cs
      else Except.error (Error.unexpectedCharacter c)

/-- Interpreter::interpret's while-let loop (interpreter.rs), with fuel.  Each
produced token consumes at least one character, so fuel `input length + 1`
never reaches 0 with input left; at fuel 0 the input is exhausted and the
accumulated list is returned, exactly as the source's loop exit. -/
def interpretGo : Nat → List Char → List Command → Except Error (List Command)
  | 0, _, acc => Except.ok acc
  | fuel + 1, chars, acc =>
      match nextToken chars with
      | Except.error e => Except.error e
      | Except.ok (none, _) => Except.ok acc
      | Except.ok (some tok, rest) =>
          match tok with
          | Token.move =>
              match nextToken rest with
              | Except.error e => Except.error e
              | Except.ok (some (Token.number d), rest2) =>
                  interpretGo fuel rest2 (acc ++ [MoveCommand.new d])
              | Except.ok (some t, _) => Except.error (Error.unexpectedToken t)
              | Except.ok (none, _) => Except.error Error.invalidCommand
          | Token.turnLeft =>
              match nextToken rest with
              | Except.error e => Except.error e
              | Except.ok (some (Token.number a), rest2) =>
                  interpretGo fuel rest2 (acc ++ [TurnLeftCommand.new a])
              | Except.ok (some t, _) => Except.error (Error.unexpectedToken t)
              | Except.ok (none, _) => Except.error Error.invalidCommand
          | Token.turnRight =>
              match nextToken rest with
              | Except.error e => Except.error e
              | Except.ok (some (Token.number a), rest2) =>
                  interpretGo fuel rest2 (acc ++ [TurnRightCommand.new a])
              | Except.ok (some t, _) => Except.error (Error.unexpectedToken t)
              | Except.ok (none, _) => Except.error Error.invalidCommand
          | Token.downPen => interpretGo fuel rest (acc ++ [Command.downPenCmd])
          | Token.upPen => interpretGo fuel rest (acc ++ [Command.upPenCmd])
          | Token.number n => Except.error (Error.unexpectedToken (Token.number n))

/-- Interpreter::interpret (interpreter.rs) on a whole input string. -/
def interpret (s : String) : Except Error (List Command) :=
  interpretGo (s.data.length + 1) s.data []

/-- The scanner run to exhaustion on an input: the token stream of the input.
Derived from Scanner::next_token; used to speak about "the token stream" of a
text. -/
def tokenizeGo : Nat → List Char → List Token → Except Error (List Token)
  | 0, _, acc => Except.ok acc
  | fuel + 1, chars, acc =>
      match nextToken chars with
      | Except.error e => Except.error e
      | Except.ok (none, _) => Except.ok acc
      | Except.ok (some t, rest) => tokenizeGo fuel rest (acc ++ [t])

/-- The token stream of a whole input string. -/
def tokenize (s : String) : Except Error (List Token) :=
  tokenizeGo (s.data.length + 1) s.data []

/-- Commands built from Move, TurnLeft and TurnRight keywords only. -/
def Command.isMoveTurn : Command → Bool
  | Command.moveCmd _ => true
  | Command.turnLeftCmd _ => true
  | Command.turnRightCmd _ => true
  | Command.downPenCmd => false
  | Command.upPenCmd => false

lemma turnLeft_turnRight (r : Robot) : r.turnLeft.turnRight = r := by
  obtain ⟨x, y, d, w⟩ := r
  cases d <;> rfl

lemma turnRight_turnLeft (r : Robot) : r.turnRight.turnLeft = r := by
  obtain ⟨x, y, d, w⟩ := r
  cases d <;> rfl

lemma turnLeft_turnLeft_turnLeft_turnLeft (r : Robot) :
    r.turnLeft.turnLeft.turnLeft.turnLeft = r := by
  obtain ⟨x, y, d, w⟩ := r
  cases d <;> rfl

lemma turnLeftN_turnLeft (n : Nat) (r : Robot) :
    turnLeftN n r.turnLeft = (turnLeftN n r).turnLeft := by
  induction n generalizing r with
  | zero => rfl
  | succ n ih => simp only [turnLeftN, ih]

lemma turnRightN_turnRight (n : Nat) (r : Robot) :
    turnRightN n r.turnRight = (turnRightN n r).turnRight := by
  induction n generalizing r with
  | zero => rfl
  | succ n ih => simp only [turnRightN, ih]

lemma turnRightN_turnLeftN (n : Nat) (r : Robot) :
    turnRightN n (turnLeftN n r) = r := by
  induction n generalizing r with
  | zero => rfl
  | succ n ih =>
      simp only [turnLeftN, turnRightN, turnLeftN_turnLeft, turnLeft_turnRight]
      exact ih r

lemma turnLeftN_turnRightN (n : Nat) (r : Robot) :
    turnLeftN n (turnRightN n r) = r := by
  induction n generalizing r with
  | zero => rfl
  | succ n ih =>
      simp only [turnRightN, turnLeftN, turnRightN_turnRight, turnRight_turnLeft]
      exact ih r

lemma wf_turnLeft (r : Robot) : r.turnLeft.wf ↔ r.wf := Iff.rfl

lemma wf_turnRight (r : Robot) : r.turnRight.wf ↔ r.wf := Iff.rfl

lemma wf_turnLeftN (n : Nat) (r : Robot) : (turnLeftN n r).wf ↔ r.wf := by
  induction n generalizing r with
  | zero => exact Iff.rfl
  | succ n ih => simpa [turnLeftN, wf_turnLeft] using ih r.turnLeft

lemma wf_turnRightN (n : Nat) (r : Robot) : (turnRightN n r).wf ↔ r.wf := by
  induction n generalizing r with
  | zero => exact Iff.rfl
  | succ n ih => simpa [turnRightN, wf_turnRight] using ih r.turnRight

lemma moveForward_wf {r r1 : Robot} {o : Option Error}
    (h : r.moveForward = (r1, o)) (hwf : r.wf) : r1.wf := by
  obtain ⟨x, y, d, w⟩ := r
  obtain ⟨h1, h2, h3, h4⟩ := hwf
  simp only [i32Min, i32Max] at h1 h2 h3 h4
  cases d <;>
    · simp only [Robot.moveForward, i32Min, i32Max] at h
      split at h <;>
        · obtain ⟨rfl, rfl⟩ := Prod.mk.injEq .. ▸ h
          constructor <;> simp only [i32Min, i32Max] <;> omega

lemma moveSteps_wf {d : Nat} {r r1 : Robot} {o : Option Error}
    (h : moveSteps d r = (r1, o)) (hwf : r.wf) : r1.wf := by
  induction d generalizing r with
  | zero =>
      simp only [moveSteps, Prod.mk.injEq] at h
      exact h.1 ▸ hwf
  | succ d ih =>
      simp only [moveSteps] at h
      cases hm : r.moveForward with
      | mk ra oa =>
          rw [hm] at h
          cases oa with
          | none => exact ih h (moveForward_wf hm hwf)
          | some e =>
              simp only [Prod.mk.injEq] at h
              exact h.1 ▸ moveForward_wf hm hwf

lemma moveSteps_succ (d : Nat) (r : Robot) :
    moveSteps (d + 1) r =
      match moveSteps d r with
      | (r1, none) => r1.moveForward
      | (r1, some e) => (r1, some e) := by
  induction d generalizing r with
  | zero =>
      simp only [moveSteps]
      cases hm : r.moveForward with
      | mk ra oa => cases oa <;> simp [moveSteps]
  | succ d ih =>
      rw [show d + 1 + 1 = d + 2 from rfl]
      simp only [moveSteps]
      cases hm : r.moveForward with
      | mk ra oa =>
          cases oa with
          | none => exact ih ra
          | some e => rfl

lemma moveForward_back {r r1 : Robot} (hwf : r.wf)
    (hm : r.moveForward = (r1, none)) :
    (r1.turnLeft.turnLeft).moveForward = (r.turnLeft.turnLeft, none) := by
  obtain ⟨x, y, d, w⟩ := r
  obtain ⟨h1, h2, h3, h4⟩ := hwf
  simp only [i32Min, i32Max] at h1 h2 h3 h4
  cases d <;>
    · simp only [Robot.moveForward, i32Min, i32Max] at hm
      split at hm
      · simp at hm
      · obtain ⟨rfl, -⟩ := Prod.mk.injEq .. ▸ hm
        simp only [Robot.turnLeft, Robot.moveForward, i32Min, i32Max]
        rw [if_neg (by omega)]
        simp only [Prod.mk.injEq, Robot.mk.injEq, and_true, true_and]
        omega

lemma moveSteps_back {d : Nat} {r r1 : Robot} (hwf : r.wf)
    (hm : moveSteps d r = (r1, none)) :
    moveSteps d r1.turnLeft.turnLeft = (r.turnLeft.turnLeft, none) := by
  induction d generalizing r with
  | zero =>
      simp only [moveSteps, Prod.mk.injEq] at hm
      rw [moveSteps, hm.1]
  | succ d ih =>
      simp only [moveSteps] at hm
      cases hstep : r.moveForward with
      | mk ra oa =>
          rw [hstep] at hm
          cases oa with
          | some e => simp at hm
          | none =>
              have hra : ra.wf := moveForward_wf hstep hwf
              have hd := ih hra hm
              rw [moveSteps_succ, hd]
              exact moveForward_back hwf hstep

lemma execute_wf {c : Command} {r r1 : Robot} {o : Option Error}
    (h : c.execute r = (r1, o)) (hwf : r.wf) : r1.wf := by
  cases c with
  | moveCmd d => exact moveSteps_wf h hwf
  | turnLeftCmd t =>
      obtain ⟨rfl, -⟩ := Prod.mk.injEq .. ▸ h
      exact (wf_turnLeftN t r).mpr hwf
  | turnRightCmd t =>
      obtain ⟨rfl, -⟩ := Prod.mk.injEq .. ▸ h
      exact (wf_turnRightN t r).mpr hwf
  | downPenCmd =>
      obtain ⟨rfl, -⟩ := Prod.mk.injEq .. ▸ h
      obtain ⟨x, y, dr, w⟩ := r
      cases w <;> exact hwf
  | upPenCmd =>
      obtain ⟨rfl, -⟩ := Prod.mk.injEq .. ▸ h
      obtain ⟨x, y, dr, w⟩ := r
      cases w <;> exact hwf

lemma execute_rollback {c : Command} {r r1 : Robot} (hwf : r.wf)
    (hmt : c.isMoveTurn = true) (he : c.execute r = (r1, none)) :
    c.rollback r1 = (r, none) := by
  cases c with
  | moveCmd d =>
      have hb := moveSteps_back hwf he
      simp only [Command.rollback, hb, turnLeft_turnLeft_turnLeft_turnLeft]
  | turnLeftCmd t =>
      obtain ⟨rfl, -⟩ := Prod.mk.injEq .. ▸ he
      simp only [Command.rollback, turnRightN_turnLeftN]
  | turnRightCmd t =>
      obtain ⟨rfl, -⟩ := Prod.mk.injEq .. ▸ he
      simp only [Command.rollback, turnLeftN_turnRightN]
  | downPenCmd => simp [Command.isMoveTurn] at hmt
  | upPenCmd => simp [Command.isMoveTurn] at hmt

lemma runList_append (step : Command → Robot → Robot × Option Error)
    (l1 l2 : List Command) (r : Robot) :
    runList step (l1 ++ l2) r =
      match runList step l1 r with
      | (r1, none) => runList step l2 r1
      | (r1, some e) => (r1, some e) := by
  induction l1 generalizing r with
  | nil => rfl
  | cons c cs ih =>
      simp only [List.cons_append, runList]
      cases hc : step c r with
      | mk ra oa => cases oa <;> simp [ih]

lemma executeAll_rollbackAll {cmds : List Command} {r r' : Robot}
    (hall : ∀ c ∈ cmds, c.isMoveTurn = true) (hwf : r.wf)
    (he : executeAll cmds r = (r', none)) :
    rollbackAll cmds r' = (r, none) := by
  induction cmds generalizing r with
  | nil =>
      simp only [executeAll, runList, Prod.mk.injEq] at he
      simp only [rollbackAll, List.reverse_nil, runList, he.1]
  | cons c cs ih =>
      simp only [executeAll, runList] at he
      cases hc : c.execute r with
      | mk ra oa =>
          rw [hc] at he
          cases oa with
          | some e => simp at he
          | none =>
              have hra : ra.wf := execute_wf hc hwf
              have htail : rollbackAll cs r' = (ra, none) :=
                ih (fun d hd => hall d (List.mem_cons_of_mem c hd)) hra he
              simp only [rollbackAll, List.reverse_cons] at htail ⊢
              rw [runList_append, htail]
              simp only [runList]
              rw [execute_rollback hwf (hall c (List.mem_cons_self c cs)) hc]

lemma uint32_le_iff (a b : UInt32) : a ≤ b ↔ a.toNat ≤ b.toNat := Iff.rfl

lemma isDigit_isAlpha_false {c : Char} (h : c.isDigit = true) : c.isAlpha = false := by
  simp only [Char.isDigit, Bool.and_eq_true, decide_eq_true_eq, ge_iff_le] at h
  obtain ⟨h1, h2⟩ := h
  rw [uint32_le_iff] at h1 h2
  cases ha : c.isAlpha
  · rfl
  · exfalso
    simp only [Char.isAlpha, Char.isUpper, Char.isLower, Bool.or_eq_true,
      Bool.and_eq_true, decide_eq_true_eq, ge_iff_le] at ha
    rcases ha with ⟨hA, hZ⟩ | ⟨hA, hZ⟩ <;> rw [uint32_le_iff] at hA hZ <;>
      simp only [show (48 : UInt32).toNat = 48 from rfl, show (57 : UInt32).toNat = 57 from rfl,
        show (65 : UInt32).toNat = 65 from rfl, show (90 : UInt32).toNat = 90 from rfl,
        show (97 : UInt32).toNat = 97 from rfl, show (122 : UInt32).toNat = 122 from rfl]
        at h1 h2 hA hZ <;> omega

lemma isAlpha_iff_toNat (c : Char) :
    c.isAlpha = true ↔ (65 ≤ c.toNat ∧ c.toNat ≤ 90) ∨ (97 ≤ c.toNat ∧ c.toNat ≤ 122) := by
  simp only [Char.isAlpha, Char.isUpper, Char.isLower, Bool.or_eq_true,
    Bool.and_eq_true, decide_eq_true_eq, ge_iff_le, uint32_le_iff]
  simp only [show (65 : UInt32).toNat = 65 from rfl, show (90 : UInt32).toNat = 90 from rfl,
    show (97 : UInt32).toNat = 97 from rfl, show (122 : UInt32).toNat = 122 from rfl]
  exact Iff.rfl

lemma isDigit_iff_toNat (c : Char) :
    c.isDigit = true ↔ 48 ≤ c.toNat ∧ c.toNat ≤ 57 := by
  simp only [Char.isDigit, Bool.and_eq_true, decide_eq_true_eq, ge_iff_le, uint32_le_iff]
  simp only [show (48 : UInt32).toNat = 48 from rfl, show (57 : UInt32).toNat = 57 from rfl]
  exact Iff.rfl

lemma rustIsWhitespace_iff (c : Char) :
    rustIsWhitespace c = true ↔
      (9 ≤ c.toNat ∧ c.toNat ≤ 13) ∨ c.toNat = 32 ∨ c.toNat = 133 ∨
      c.toNat = 160 ∨ c.toNat = 5760 ∨ (8192 ≤ c.toNat ∧ c.toNat ≤ 8202) ∨
      c.toNat = 8232 ∨ c.toNat = 8233 ∨ c.toNat = 8239 ∨ c.toNat = 8287 ∨
      c.toNat = 12288 := by
  simp only [rustIsWhitespace, decide_eq_true_eq]

lemma rustWhitespace_isAlpha_false {c : Char} (h : rustIsWhitespace c = true) :
    c.isAlpha = false := by
  rw [rustIsWhitespace_iff] at h
  cases ha : c.isAlpha
  · rfl
  · rw [isAlpha_iff_toNat] at ha
    omega

lemma rustWhitespace_isDigit_false {c : Char} (h : rustIsWhitespace c = true) :
    c.isDigit = false := by
  rw [rustIsWhitespace_iff] at h
  cases hd : c.isDigit
  · rfl
  · rw [isDigit_iff_toNat] at hd
    omega

lemma isDigit_rustWhitespace_false {c : Char} (h : c.isDigit = true) :
    rustIsWhitespace c = false := by
  rw [isDigit_iff_toNat] at h
  cases hw : rustIsWhitespace c
  · rfl
  · rw [rustIsWhitespace_iff] at hw
    omega

lemma takeWord_no_ws {l : List Char} (h : ∀ x ∈ l, rustIsWhitespace x = false)
    (acc : List Char) : takeWord acc l = (acc ++ l, []) := by
  induction l generalizing acc with
  | nil => simp [takeWord]
  | cons c cs ih =>
      have hc := h c (List.mem_cons_self c cs)
      simp only [takeWord, hc, Bool.not_false, if_true]
      rw [ih (fun x hx => h x (List.mem_cons_of_mem c hx))]
      simp

lemma takeWord_ws_delim {l : List Char} (h : ∀ x ∈ l, rustIsWhitespace x = false)
    {w : Char} (hw : rustIsWhitespace w = true) (tail acc : List Char) :
    takeWord acc (l ++ w :: tail) = (acc ++ l, tail) := by
  induction l generalizing acc with
  | nil => simp [takeWord, hw]
  | cons c cs ih =>
      have hc := h c (List.mem_cons_self c cs)
      simp only [List.cons_append, takeWord, hc, Bool.not_false, if_true, List.append_eq]
      rw [ih (fun x hx => h x (List.mem_cons_of_mem c hx))]
      simp

lemma runList_singleton (step : Command → Robot → Robot × Option Error)
    (c : Command) (r : Robot) : runList step [c] r = step c r := by
  cases hc : step c r with
  | mk a o => cases o <;> simp [runList, hc]

/-- C1: for every command text that interprets successfully into a command
list containing only Move, TurnLeft and TurnRight commands, if execute_all on
a (well-formed, i.e. i32-ranged) Robot succeeds, then rollback_all afterwards
returns the Robot to exactly its pre-execute state: x, y, heading and drawing
all equal their original values. -/
theorem C1_interpret_execute_rollback_roundtrip (s : String) (cmds : List Command)
    (r r' : Robot)
    (hs : interpret s = Except.ok cmds)
    (hmt : ∀ c ∈ cmds, c.isMoveTurn = true)
    (hwf : r.wf)
    (he : executeAll cmds r = (r', none)) :
    rollbackAll cmds r' = (r, none) :=
  executeAll_rollbackAll hmt hwf he

/-- Witness for C1 at the text "move 2 turn_left 1" and the default robot. -/
theorem C1_witness :
    rollbackAll [Command.moveCmd 2, Command.turnLeftCmd 1]
        (Robot.mk 0 2 Direction.left false) =
      (Robot.mk 0 0 Direction.up false, none) :=
  C1_interpret_execute_rollback_roundtrip "move 2 turn_left 1"
    [Command.moveCmd 2, Command.turnLeftCmd 1]
    (Robot.mk 0 0 Direction.up false) (Robot.mk 0 2 Direction.left false)
    rfl (by decide) (by decide) rfl

/-- C2: move_forward fails with OutOfBounds and leaves the robot unchanged
exactly when the coordinate along the current heading is at the extreme
representable value in that direction (y = i32::MAX facing Up, x = i32::MAX
facing Right, y = i32::MIN facing Down, x = i32::MIN facing Left); on every
other robot it succeeds. -/
theorem C2_move_forward_boundary (r : Robot) :
    (r.atEdge = true → r.moveForward = (r, some Error.outOfBounds)) ∧
    (r.atEdge = false → (r.moveForward).2 = none) := by
  obtain ⟨x, y, d, w⟩ := r
  cases d <;>
    · constructor <;>
        · intro h
          simp only [Robot.atEdge, beq_iff_eq, beq_eq_false_iff_ne, ne_eq] at h
          simp [Robot.moveForward, h]

/-- Witness for C2: error at (0, i32::MAX) facing Up, success at the origin. -/
theorem C2_witness :
    Robot.moveForward (Robot.mk 0 i32Max Direction.up false) =
        (Robot.mk 0 i32Max Direction.up false, some Error.outOfBounds) ∧
      (Robot.moveForward (Robot.mk 0 0 Direction.up false)).2 = none :=
  ⟨(C2_move_forward_boundary _).1 (by decide),
   (C2_move_forward_boundary _).2 (by decide)⟩

/-- C3: turn_left maps the heading by the fixed cycle
Up→Left→Down→Right→Up and turn_right by the exact inverse cycle
Up→Right→Down→Left→Up; neither changes any other field (they are total
functions, so they never fail), and each undoes the other. -/
theorem C3_turn_cycles (r : Robot) :
    r.turnLeft.direction =
        (match r.direction with
         | Direction.up => Direction.left
         | Direction.left => Direction.down
         | Direction.down => Direction.right
         | Direction.right => Direction.up) ∧
    r.turnRight.direction =
        (match r.direction with
         | Direction.up => Direction.right
         | Direction.right => Direction.down
         | Direction.down => Direction.left
         | Direction.left => Direction.up) ∧
    r.turnLeft.x = r.x ∧ r.turnLeft.y = r.y ∧ r.turnLeft.drawing = r.drawing ∧
    r.turnRight.x = r.x ∧ r.turnRight.y = r.y ∧ r.turnRight.drawing = r.drawing ∧
    r.turnLeft.turnRight = r ∧ r.turnRight.turnLeft = r := by
  obtain ⟨x, y, d, w⟩ := r
  cases d <;> exact ⟨rfl, rfl, rfl, rfl, rfl, rfl, rfl, rfl, rfl, rfl⟩

/-- C4: TurnLeftCommand::new(n) and TurnRightCommand::new(n) build the very
same command as new(n mod 4), hence have identical execute and rollback
behaviour; in particular new(5) behaves identically to new(1). -/
theorem C4_turn_new_mod4 (n : Nat) (r : Robot) :
    TurnLeftCommand.new n = TurnLeftCommand.new (n % 4) ∧
    TurnRightCommand.new n = TurnRightCommand.new (n % 4) ∧
    (TurnLeftCommand.new n).execute r = (TurnLeftCommand.new (n % 4)).execute r ∧
    (TurnLeftCommand.new n).rollback r = (TurnLeftCommand.new (n % 4)).rollback r ∧
    (TurnRightCommand.new n).execute r = (TurnRightCommand.new (n % 4)).execute r ∧
    (TurnRightCommand.new n).rollback r = (TurnRightCommand.new (n % 4)).rollback r ∧
    TurnLeftCommand.new 5 = TurnLeftCommand.new 1 ∧
    TurnRightCommand.new 5 = TurnRightCommand.new 1 := by
  have h : n % 4 % 4 = n % 4 := by omega
  unfold TurnLeftCommand.new TurnRightCommand.new
  rw [h]
  exact ⟨rfl, rfl, rfl, rfl, rfl, rfl, rfl, rfl⟩

/-- C5: execute_all applies the commands in exactly insertion order and
rollback_all applies each command's rollback in exactly reverse insertion
order; both stop at the first failing command, return its error unchanged,
attempt no later command, and leave the effects of the already-applied
commands in place (the robot paired with the error carries them). -/
theorem C5_order_and_failfast (l1 l2 : List Command) (c : Command) (r : Robot) :
    executeAll (l1 ++ l2) r =
        (match executeAll l1 r with
         | (r1, none) => executeAll l2 r1
         | (r1, some e) => (r1, some e)) ∧
    rollbackAll (l1 ++ l2) r =
        (match rollbackAll l2 r with
         | (r1, none) => rollbackAll l1 r1
         | (r1, some e) => (r1, some e)) ∧
    executeAll [c] r = c.execute r ∧
    rollbackAll [c] r = c.rollback r := by
  refine ⟨runList_append Command.execute l1 l2 r, ?_, runList_singleton Command.execute c r, ?_⟩
  · simp only [rollbackAll, List.reverse_append]
    exact runList_append Command.rollback l2.reverse l1.reverse r
  · simp only [rollbackAll, List.reverse_singleton]
    exact runList_singleton Command.rollback c r

/-- C8: DownPenCommand's execute sets drawing to true and its rollback sets it
to false unconditionally, whatever drawing was before; UpPenCommand is the
exact mirror.  Pen rollback restores a fixed state, not the prior value. -/
theorem C8_pen_commands (r : Robot) :
    Command.downPenCmd.execute r = ({ r with drawing := true }, none) ∧
    Command.downPenCmd.rollback r = ({ r with drawing := false }, none) ∧
    Command.upPenCmd.execute r = ({ r with drawing := false }, none) ∧
    Command.upPenCmd.rollback r = ({ r with drawing := true }, none) := by
  obtain ⟨x, y, d, w⟩ := r
  cases w <;> exact ⟨rfl, rfl, rfl, rfl⟩

/-- C9: interpreting "move 10" yields exactly one command, Move with distance
10, and executing it against a fresh default robot (0, 0, Up, not drawing)
succeeds and leaves the robot at x = 0, y = 10, heading Up. -/
theorem C9_move_ten_scenario :
    interpret "move 10" = Except.ok [MoveCommand.new 10] ∧
    executeAll [MoveCommand.new 10] Robot.default =
      (Robot.mk 0 10 Direction.up false, none) :=
  ⟨rfl, rfl⟩

/-- C6 counterexample: in the text "5 move" the Move keyword is the last token
of the stream, yet interpret fails with UnexpectedToken(Number 5) — the error
of the earlier misplaced number token — and not with InvalidCommand, so the
claim's universal statement over all inputs is false. -/
theorem C6_counterexample :
    tokenize "5 move" = Except.ok [Token.number 5, Token.move] ∧
    interpret "5 move" = Except.error (Error.unexpectedToken (Token.number 5)) ∧
    interpret "5 move" ≠ Except.error Error.invalidCommand := by
  refine ⟨rfl, rfl, fun h => ?_⟩
  rw [show interpret "5 move" = Except.error (Error.unexpectedToken (Token.number 5))
    from rfl] at h
  exact absurd (Except.error.inj h) (by decide)

/-- C6 amended: when interpretation reaches a Move, TurnLeft or TurnRight
keyword (the remaining input scans to that keyword first), then if the next
token is not a Number the interpreter fails with UnexpectedToken carrying that
token, and if the token stream ends it fails with InvalidCommand; no command
list is returned.  (An error raised on an earlier token preempts this, as in
"5 move".) -/
theorem C6_keyword_argument_errors (fuel : Nat) (chars rest : List Char)
    (acc : List Command) (kw : Token)
    (hkw : kw = Token.move ∨ kw = Token.turnLeft ∨ kw = Token.turnRight)
    (h1 : nextToken chars = Except.ok (some kw, rest)) :
    (∀ t rest2, nextToken rest = Except.ok (some t, rest2) →
        (∀ n, t ≠ Token.number n) →
        interpretGo (fuel + 1) chars acc = Except.error (Error.unexpectedToken t)) ∧
    (∀ rest2, nextToken rest = Except.ok (none, rest2) →
        interpretGo (fuel + 1) chars acc = Except.error Error.invalidCommand) := by
  constructor
  · intro t rest2 h2 hn
    simp only [interpretGo, h1]
    rcases hkw with rfl | rfl | rfl <;> simp only [h2]
  · intro rest2 h2
    simp only [interpretGo, h1]
    rcases hkw with rfl | rfl | rfl <;> simp only [h2]

/-- Witness for the amended C6 at the text "move up_pen". -/
theorem C6_witness :
    interpretGo 1 "move up_pen".data [] =
      Except.error (Error.unexpectedToken Token.upPen) :=
  (C6_keyword_argument_errors 0 "move up_pen".data "up_pen".data [] Token.move
      (Or.inl rfl) rfl).1
    Token.upPen [] rfl (fun _ h => Token.noConfusion h)

/-- C7 counterexample: on "move@10" the scanner does not fail with
UnexpectedCharacter('@'): the '@' inside the keyword being accumulated is
pushed into the buffer, and next_token fails with
UndefinedCommand("move@10") instead.  The claim's "including inside a keyword
or number being accumulated" is false. -/
theorem C7_counterexample :
    nextToken "move@10".data = Except.error (Error.undefinedCommand "move@10") ∧
    nextToken "move@10".data ≠ Except.error (Error.unexpectedCharacter '@') := by
  refine ⟨rfl, fun h => ?_⟩
  rw [show nextToken "move@10".data = Except.error (Error.undefinedCommand "move@10")
    from rfl] at h
  exact absurd (Except.error.inj h) (by decide)

/-- C7 amended: when a non-whitespace character that is neither letter nor
digit is the first non-whitespace character the scanner meets in a call (i.e.
it starts a token), next_token fails with UnexpectedCharacter carrying it;
inside an already-started keyword or number the character is instead
accumulated into the buffer and surfaces as UndefinedCommand or
InvalidCommandParameter.  The skipped prefix may contain any of Rust's
whitespace characters (the full Unicode White_Space set); the offending
character is restricted to the ASCII range, on which `Char.isAlpha` is
exactly Rust's `char::is_alphabetic`, `Char.isDigit` exactly
`is_ascii_digit`, and `rustIsWhitespace` exactly `char::is_whitespace` — so
on this domain the model's branch and the program's branch coincide. -/
theorem C7_unexpected_character_at_token_start (ws : List Char) (c : Char)
    (rest : List Char)
    (hws : ∀ w ∈ ws, rustIsWhitespace w = true)
    (hascii : c.toNat < 128)
    (ha : c.isAlpha = false) (hd : c.isDigit = false)
    (hw : rustIsWhitespace c = false) :
    nextToken (ws ++ c :: rest) = Except.error (Error.unexpectedCharacter c) := by
  induction ws with
  | nil => simp [nextToken, ha, hd, hw]
  | cons w ws ih =>
      have hw1 := hws w (List.mem_cons_self w ws)
      have hwa : w.isAlpha = false := rustWhitespace_isAlpha_false hw1
      have hwd : w.isDigit = false := rustWhitespace_isDigit_false hw1
      simp only [List.cons_append, nextToken, hwa, hwd, hw1, Bool.false_eq_true,
        if_false, if_true]
      exact ih (fun x hx => hws x (List.mem_cons_of_mem w hx))

/-- Witness for the amended C7 at the input " @". -/
theorem C7_witness :
    nextToken ([' '] ++ '@' :: []) = Except.error (Error.unexpectedCharacter '@') :=
  C7_unexpected_character_at_token_start [' '] '@' []
    (by decide) (by decide) (by decide) (by decide) (by decide)

/-- C10: an input token made of ASCII digits only whose value is at least
2^32 (so it exceeds u32::MAX) makes next_token fail with
InvalidCommandParameter carrying exactly that digit string: the language's
NUMBER is limited to the 32-bit unsigned range and overflow is a parse
failure, not a distinct error. -/
theorem C10_number_overflow (buf tail : List Char)
    (hne : buf ≠ [])
    (hdig : ∀ c ∈ buf, c.isDigit = true)
    (hval : 4294967296 ≤ digitsVal buf)
    (htail : tail = [] ∨ ∃ w tail2, tail = w :: tail2 ∧ rustIsWhitespace w = true) :
    nextToken (buf ++ tail) =
      Except.error (Error.invalidCommandParameter (String.mk buf)) := by
  obtain ⟨c, cs, rfl⟩ : ∃ c cs, buf = c :: cs := by
    cases buf with
    | nil => exact absurd rfl hne
    | cons c cs => exact ⟨c, cs, rfl⟩
  have hc : c.isDigit = true := hdig c (List.mem_cons_self c cs)
  have hna : c.isAlpha = false := isDigit_isAlpha_false hc
  have hnw : ∀ x ∈ cs, rustIsWhitespace x = false := fun x hx =>
    isDigit_rustWhitespace_false (hdig x (List.mem_cons_of_mem c hx))
  obtain ⟨rest, htw⟩ : ∃ rest, takeWord [c] (cs ++ tail) = (c :: cs, rest) := by
    rcases htail with rfl | ⟨w, t2, rfl, hwsp⟩
    · rw [List.append_nil]
      exact ⟨[], takeWord_no_ws hnw [c]⟩
    · exact ⟨t2, takeWord_ws_delim hnw hwsp t2 [c]⟩
  have hpn : parseU32 (String.mk (c :: cs)) = none := by
    unfold parseU32
    rw [if_neg]
    rintro ⟨-, -, h3⟩
    have h3' : digitsVal (c :: cs) < 4294967296 := h3
    omega
  simp only [List.cons_append, nextToken, hna, hc, Bool.false_eq_true, if_false,
    if_true, scanNumber, List.append_eq, htw, hpn]

/-- Witness for C10 at the digit string "4294967296" = 2^32. -/
theorem C10_witness :
    nextToken ("4294967296".data ++ []) =
      Except.error (Error.invalidCommandParameter (String.mk "4294967296".data)) :=
  C10_number_overflow "4294967296".data [] (by decide) (by decide) (by decide)
    (Or.inl rfl)

end RobotLang
